import Mathlib

/-!
Verification of the adaptive GPU fan-speed controller and the static fan
curve interpolator from gpu_fan_controller.py.  The two components are
shallowly embedded: Python floats are modelled by exact rationals, Python
integers by Int, and the closure-captured mutable state of
temperature_control by an explicit state record threaded through the step
function.  The Python builtin int() truncates toward zero; it is modelled
by pyInt below.
-/

/-- Model of the Python builtin int() applied to a float: truncation toward
zero (ceiling for negative arguments, floor otherwise). -/
def pyInt (q : ℚ) : ℤ := if q < 0 then ⌈q⌉ else ⌊q⌋

/-- Model of the Python builtin max() on a list of floats.  Python raises on
an empty list; the 0 default is never reached in this development because
every call site guards the list to be nonempty. -/
def listMax : List ℚ → ℚ
  | [] => 0
  | x :: xs => xs.foldl max x

/-- Model of the Python builtin min() on a list of floats, with the same
convention for the unreachable empty case as listMax. -/
def listMin : List ℚ → ℚ
  | [] => 0
  | x :: xs => xs.foldl min x

/-- Fan curve: a name and a list of (temperature, fan speed) control points,
from class FanCurve (line 157). -/
structure FanCurve where
  name : String
  points : List (ℚ × ℚ)

/-- The default control points of FanCurve.__init__ (line 163). -/
def default_points : List (ℚ × ℚ) := [(30, 30), (50, 40), (70, 60), (80, 80), (90, 100)]

/-- Model of FanCurve.__init__ (lines 161-165): a None or empty points
argument is replaced by the default curve (the Python expression
points or default is falsy on both), and the points are stably sorted
ascending by temperature.  Pythons stable list.sort with a key is modelled
by insertion sort on the first component.  No validation is performed and
no exception can be raised. -/
def mkFanCurve (name : String) (points : Option (List (ℚ × ℚ))) : FanCurve :=
  let pts := match points with
    | none => default_points
    | some [] => default_points
    | some ps => ps
  { name := name, points := List.insertionSort (fun a b => a.1 ≤ b.1) pts }

/-- Model of the interpolation loop of FanCurve.get_fan_speed
(lines 181-191): scan consecutive point pairs, return the linear
interpolation at the first pair bracketing the temperature, and fall back
to 50 when no pair brackets it. -/
def interp_pts : List (ℚ × ℚ) → ℚ → ℚ
  | p1 :: p2 :: rest, t =>
    if p1.1 ≤ t ∧ t ≤ p2.1 then
      p1.2 + (t - p1.1) / (p2.1 - p1.1) * (p2.2 - p1.2)
    else interp_pts (p2 :: rest) t
  | _, _ => 50

/-- Model of the body of FanCurve.get_fan_speed on an available temperature
(lines 172-191): clamp below the first point, clamp above the last point,
otherwise interpolate.  On an empty point list the Python code raises
IndexError; that unreachable case is given the junk value 0 and is excluded
by hypothesis in every theorem about this function. -/
def FanCurve.speed (c : FanCurve) (t : ℚ) : ℚ :=
  match c.points with
  | [] => 0
  | p :: ps =>
    if t ≤ p.1 then p.2
    else if t ≥ ((p :: ps).getLast (List.cons_ne_nil p ps)).1 then
      ((p :: ps).getLast (List.cons_ne_nil p ps)).2
    else interp_pts (p :: ps) t

/-- Model of FanCurve.get_fan_speed (lines 167-191): a None temperature is
answered with None before any point is inspected. -/
def FanCurve.get_fan_speed (c : FanCurve) (temperature : Option ℚ) : Option ℚ :=
  match temperature with
  | none => none
  | some t => some (c.speed t)

/-- The closure state of temperature_control (lines 226-234): last commanded
fan speed, temperature history, aggressive/gentle mode flag and stability
counter. -/
structure ControllerState where
  last_fan_speed : ℤ
  temp_history : List ℚ
  aggressive_mode : Bool
  stable_counter : ℕ
  deriving DecidableEq, Repr

/-- Initial closure state of temperature_control (lines 226-233): last speed
is min_fan, empty history, aggressive mode, zero counter. -/
def temperature_control_init (min_fan : ℤ) : ControllerState :=
  { last_fan_speed := min_fan, temp_history := [], aggressive_mode := true, stable_counter := 0 }

/-- History update of get_fan_speed_for_temp (lines 242-245): append the
sample and drop the oldest entry when the length exceeds 10. -/
def update_history (hist : List ℚ) (t : ℚ) : List ℚ :=
  let h := hist ++ [t]
  if h.length > 10 then h.tail else h

/-- Stability and mode update of get_fan_speed_for_temp (lines 247-261),
evaluated on the already-updated history: with at least 4 readings, a sample
within 3 of target and history variation below 2 increments the counter and
switches aggressive to gentle once the counter reaches 6; any other sample
resets the counter and switches gentle back to aggressive when the sample is
more than 5 from target or the variation exceeds 4.  Returns the new
(mode, counter) pair. -/
def stability_update (target_temp : ℚ) (hist : List ℚ) (t : ℚ)
    (mode : Bool) (counter : ℕ) : Bool × ℕ :=
  if 4 ≤ hist.length then
    let variation := listMax hist - listMin hist
    if |t - target_temp| < 3 ∧ variation < 2 then
      let c := counter + 1
      if 6 ≤ c ∧ mode = true then (false, c) else (mode, c)
    else
      if mode = false ∧ (|t - target_temp| > 5 ∨ variation > 4) then (true, 0) else (mode, 0)
  else (mode, counter)

/-- Candidate fan speed of get_fan_speed_for_temp (lines 263-298), computed
from the mode after the stability update and the updated history: above
target, raise the last speed by max(min step, int(diff * over gain)), the
step being int-multiplied by 1.5 when at least 3 readings exist and the
latest exceeds the one from two samples ago, clamped to max_fan; at or below
target, lower it by max(min step, int(|diff| * under gain)) int-multiplied
by 0.7 (aggressive) or 0.5 (gentle), clamped to min_fan. -/
def compute_candidate (target_temp : ℚ) (min_fan max_fan : ℤ) (mode : Bool)
    (hist : List ℚ) (last_fan_speed : ℤ) (t : ℚ) : ℤ :=
  let temp_diff := t - target_temp
  let over_target_gain : ℚ := if mode = true then 2.5 else 1.5
  let under_target_gain : ℚ := if mode = true then 1.5 else 0.8
  let min_adjustment : ℤ := if mode = true then 3 else 1
  if temp_diff > 0 then
    let adjustment := max min_adjustment (pyInt (temp_diff * over_target_gain))
    let adjustment :=
      if 3 ≤ hist.length ∧ hist.getD (hist.length - 1) 0 > hist.getD (hist.length - 3) 0 then
        pyInt ((adjustment : ℚ) * 1.5)
      else adjustment
    min max_fan (last_fan_speed + adjustment)
  else
    let adjustment := max min_adjustment (pyInt (|temp_diff| * under_target_gain))
    let adjustment :=
      if mode = true then pyInt ((adjustment : ℚ) * 0.7) else pyInt ((adjustment : ℚ) * 0.5)
    max min_fan (last_fan_speed - adjustment)

/-- Model of get_fan_speed_for_temp (lines 236-304): a None sample returns
the last speed with the state untouched; otherwise the history, mode and
counter are updated, a candidate speed is computed, and the candidate is
committed exactly when it moves the speed by at least 2 or the sample is
more than 3 from target.  Returns the new state and the returned speed. -/
def get_fan_speed_for_temp (target_temp : ℚ) (min_fan max_fan : ℤ)
    (s : ControllerState) (current_temp : Option ℚ) : ControllerState × ℤ :=
  match current_temp with
  | none => (s, s.last_fan_speed)
  | some t =>
    let hist := update_history s.temp_history t
    let mc := stability_update target_temp hist t s.aggressive_mode s.stable_counter
    let new_fan := compute_candidate target_temp min_fan max_fan mc.1 hist s.last_fan_speed t
    let last' :=
      if 2 ≤ |new_fan - s.last_fan_speed| ∨ |t - target_temp| > 3 then new_fan
      else s.last_fan_speed
    (⟨last', hist, mc.1, mc.2⟩, last')

/-- A controller session: fold the step function over a list of samples
starting from the initial closure state. -/
def run (target_temp : ℚ) (min_fan max_fan : ℤ) (samples : List (Option ℚ)) : ControllerState :=
  samples.foldl (fun s c => (get_fan_speed_for_temp target_temp min_fan max_fan s c).1)
    (temperature_control_init min_fan)

/-! Helper lemmas about pyInt and list indexing. -/

lemma pyInt_of_nonneg {q : ℚ} (h : 0 ≤ q) : pyInt q = ⌊q⌋ := by
  unfold pyInt
  rw [if_neg (by linarith)]

lemma pyInt_nonneg {q : ℚ} (h : 0 ≤ q) : 0 ≤ pyInt q := by
  rw [pyInt_of_nonneg h]
  positivity

lemma getD_eq_getElem {α : Type} (l : List α) (d : α) {i : ℕ} (h : i < l.length) :
    l.getD i d = l[i] := by
  simp [List.getD_eq_getElem?_getD, List.getElem?_eq_getElem h]

/-- C4: calling the controller with an unavailable (None) temperature returns
the current last speed and leaves the whole state (last speed, history, mode
flag, stability counter) unchanged. -/
theorem spec_C4 (target_temp : ℚ) (min_fan max_fan : ℤ) (s : ControllerState) :
    (get_fan_speed_for_temp target_temp min_fan max_fan s none).1 = s ∧
    (get_fan_speed_for_temp target_temp min_fan max_fan s none).2 = s.last_fan_speed :=
  ⟨rfl, rfl⟩

/-- C10: for every FanCurve, get_fan_speed applied to an unavailable (None)
temperature returns None: no exception is raised and no fallback speed is
produced, and the curve, being a pure value, is unchanged. -/
theorem spec_C10 (c : FanCurve) : c.get_fan_speed none = none := rfl

/-- C2: the candidate speed computed by the update rule is committed (it
becomes the new last speed and the returned value) exactly when it differs
from the last speed by at least 2 or the sample is more than 3 away from the
target; otherwise the previous last speed is returned unchanged. -/
theorem spec_C2 (target_temp : ℚ) (min_fan max_fan : ℤ) (s : ControllerState) (t : ℚ) :
    (get_fan_speed_for_temp target_temp min_fan max_fan s (some t)).2 =
      (if 2 ≤ |compute_candidate target_temp min_fan max_fan
                 (stability_update target_temp (update_history s.temp_history t) t
                   s.aggressive_mode s.stable_counter).1
                 (update_history s.temp_history t) s.last_fan_speed t - s.last_fan_speed|
          ∨ |t - target_temp| > 3
       then compute_candidate target_temp min_fan max_fan
              (stability_update target_temp (update_history s.temp_history t) t
                s.aggressive_mode s.stable_counter).1
              (update_history s.temp_history t) s.last_fan_speed t
       else s.last_fan_speed) ∧
    (get_fan_speed_for_temp target_temp min_fan max_fan s (some t)).1.last_fan_speed =
      (get_fan_speed_for_temp target_temp min_fan max_fan s (some t)).2 :=
  ⟨rfl, rfl⟩

/-- C1 as stated is false on the code: with a fresh controller at
target 70, bounds 30 and 100, and the sample 71.5, the code truncates
1.5 * 2.5 = 3.75 to 3 via int() and returns min(100, 30 + max(3, 3)) = 33,
while the claimed formula max(minStep, round(diff * overGain)) gives
max(3, round(3.75)) = 4 and hence the candidate min(100, 30 + 4) = 34,
which the hysteresis gate would commit. -/
theorem spec_C1_cex :
    (get_fan_speed_for_temp 70 30 100 (temperature_control_init 30) (some 71.5)).2 = 33 ∧
    min (100 : ℤ) (30 + max 3 (round (((71.5 : ℚ) - 70) * 2.5))) = 34 ∧ (33 : ℤ) ≠ 34 := by
  refine ⟨?_, by norm_num [round_eq], by norm_num⟩
  norm_num [get_fan_speed_for_temp, update_history, stability_update, compute_candidate,
    temperature_control_init, pyInt, List.getD]

/-- C1 (amended): the update rule of the code, with the rounding of the
claim corrected to the truncation performed by the Python builtin int()
(equal to the floor on the nonnegative quantities involved), and with the
0.7 / 0.5 multiplication of the decrease branch likewise truncated to an
integer: with diff = currentTemp - target, if diff > 0 the candidate is
min(maxFan, lastSpeed + adjustment) where adjustment is
max(minStep, floor(diff * overGain)), floor-multiplied by 1.5 when the
history holds at least 3 samples and the latest reading exceeds the one
from 2 samples ago; if diff <= 0 the candidate is
max(minFan, lastSpeed - adjustment) where adjustment is
max(minStep, floor(|diff| * underGain)) floor-multiplied by 0.7 in
aggressive mode and 0.5 in gentle mode, with (overGain, underGain, minStep)
equal to (2.5, 1.5, 3) in aggressive mode and (1.5, 0.8, 1) in gentle
mode, the mode being the one in force after the stability update. -/
theorem spec_C1 (target_temp : ℚ) (min_fan max_fan : ℤ) (s : ControllerState) (t : ℚ)
    (hist : List ℚ) (m : Bool) (diff overGain underGain : ℚ) (minStep : ℤ)
    (hhist : hist = update_history s.temp_history t)
    (hm : m = (stability_update target_temp hist t s.aggressive_mode s.stable_counter).1)
    (hdiff : diff = t - target_temp)
    (hog : overGain = if m = true then 2.5 else 1.5)
    (hug : underGain = if m = true then 1.5 else 0.8)
    (hms : minStep = if m = true then 3 else 1) :
    compute_candidate target_temp min_fan max_fan m hist s.last_fan_speed t =
      if 0 < diff then
        min max_fan (s.last_fan_speed +
          (if 3 ≤ hist.length ∧ hist.getD (hist.length - 1) 0 > hist.getD (hist.length - 3) 0 then
             ⌊(max minStep ⌊diff * overGain⌋ : ℚ) * 1.5⌋
           else max minStep ⌊diff * overGain⌋))
      else
        max min_fan (s.last_fan_speed -
          ⌊(max minStep ⌊|diff| * underGain⌋ : ℚ) * (if m = true then 0.7 else 0.5)⌋) := by
  subst hdiff hog hug hms
  have key : ∀ (ms : ℤ) (g : ℚ) (q : ℚ), 0 ≤ ms → 0 ≤ q → 0 ≤ g →
      (0 : ℚ) ≤ ((max ms ⌊q * g⌋ : ℤ) : ℚ) := by
    intro ms g q hms hq hg
    have : (0 : ℤ) ≤ max ms ⌊q * g⌋ := le_trans hms (le_max_left _ _)
    exact_mod_cast this
  cases m
  · simp only [compute_candidate, Bool.false_eq_true, if_false]
    by_cases hd : 0 < t - target_temp
    · rw [if_pos hd, if_pos hd,
        pyInt_of_nonneg (mul_nonneg hd.le (by norm_num : (0:ℚ) ≤ 1.5))]
      split_ifs with hc
      · rw [pyInt_of_nonneg
          (mul_nonneg (key 1 1.5 (t - target_temp) (by norm_num) hd.le (by norm_num))
            (by norm_num : (0:ℚ) ≤ 1.5))]
        push_cast
        ring_nf
      · rfl
    · rw [if_neg hd, if_neg hd,
        pyInt_of_nonneg (mul_nonneg (abs_nonneg _) (by norm_num : (0:ℚ) ≤ 0.8)),
        pyInt_of_nonneg
          (mul_nonneg (key 1 0.8 |t - target_temp| (by norm_num) (abs_nonneg _) (by norm_num))
            (by norm_num : (0:ℚ) ≤ 0.5))]
      push_cast
      ring_nf
  · simp only [compute_candidate, if_true]
    by_cases hd : 0 < t - target_temp
    · rw [if_pos hd, if_pos hd,
        pyInt_of_nonneg (mul_nonneg hd.le (by norm_num : (0:ℚ) ≤ 2.5))]
      split_ifs with hc
      · rw [pyInt_of_nonneg
          (mul_nonneg (key 3 2.5 (t - target_temp) (by norm_num) hd.le (by norm_num))
            (by norm_num : (0:ℚ) ≤ 1.5))]
        push_cast
        ring_nf
      · rfl
    · rw [if_neg hd, if_neg hd,
        pyInt_of_nonneg (mul_nonneg (abs_nonneg _) (by norm_num : (0:ℚ) ≤ 1.5)),
        pyInt_of_nonneg
          (mul_nonneg (key 3 1.5 |t - target_temp| (by norm_num) (abs_nonneg _) (by norm_num))
            (by norm_num : (0:ℚ) ≤ 0.7))]
      push_cast
      ring_nf

/-- Witness for spec_C1: the amended rule evaluated on a fresh aggressive
controller at target 70, bounds 30 and 100, with the sample 71.5. -/
theorem spec_C1_witness :
    compute_candidate 70 30 100 true [71.5] 30 71.5 =
      min (100 : ℤ) (30 + max 3 ⌊((71.5 : ℚ) - 70) * 2.5⌋) := by
  have h := spec_C1 70 30 100 (temperature_control_init 30) 71.5 [71.5] true
    ((71.5 : ℚ) - 70) 2.5 1.5 3
    (by norm_num [update_history, temperature_control_init])
    (by norm_num [stability_update, temperature_control_init, listMax, listMin])
    rfl (by norm_num) (by norm_num) (by norm_num)
  simp only [temperature_control_init] at h
  rw [h, if_pos (by norm_num)]
  norm_num [List.getD]

instance : IsTrans (ℚ × ℚ) (fun a b => a.1 ≤ b.1) :=
  ⟨fun _ _ _ => le_trans⟩

instance : IsTotal (ℚ × ℚ) (fun a b => a.1 ≤ b.1) :=
  ⟨fun a b => le_total a.1 b.1⟩

instance : IsTrans (ℚ × ℚ) (fun a b => a.1 < b.1) :=
  ⟨fun _ _ _ => lt_trans⟩

instance : IsTrans (ℚ × ℚ) (fun a b => a.2 ≤ b.2) :=
  ⟨fun _ _ _ => le_trans⟩

/-- C7 is refuted: neither component validates its configuration.  A
FanCurve built from the single point (50, 40) is constructed without any
error and even answers queries (the construction is silently tolerated),
and a controller with min_fan = 80 greater than max_fan = 20 is constructed
without any error and produces speeds. -/
theorem spec_C7_cex :
    mkFanCurve "Single" (some [(50, 40)]) = ⟨"Single", [(50, 40)]⟩ ∧
    (mkFanCurve "Single" (some [(50, 40)])).speed 60 = 40 ∧
    temperature_control_init 80 = ⟨80, [], true, 0⟩ ∧
    (get_fan_speed_for_temp 70 80 20 (temperature_control_init 80) (some 75)).2 = 20 := by
  refine ⟨?_, ?_, rfl, ?_⟩
  · simp [mkFanCurve, List.insertionSort]
  · norm_num [mkFanCurve, List.insertionSort, FanCurve.speed, List.getLast]
  · norm_num [get_fan_speed_for_temp, update_history, stability_update, compute_candidate,
      temperature_control_init, pyInt, List.getD]

/-- C7 (amended): construction never rejects its input and no error
condition exists in either component.  The FanCurve constructor accepts any
point list, replacing a missing or empty list by the default curve, and
only sorts the points ascending by temperature, always yielding a nonempty
curve; the controller constructor accepts any bounds, including
minFan > maxFan or bounds outside [0, 100], and merely initializes its
state with lastSpeed = minFan, empty history, aggressive mode and zero
counter.  Point-count and bound validation exist only in the GUI dialogs,
outside the two components. -/
theorem spec_C7 (name : String) (opts : Option (List (ℚ × ℚ))) (min_fan : ℤ) :
    List.Chain' (fun a b : ℚ × ℚ => a.1 ≤ b.1) (mkFanCurve name opts).points ∧
    1 ≤ (mkFanCurve name opts).points.length ∧
    (mkFanCurve name none).points = default_points ∧
    temperature_control_init min_fan =
      { last_fan_speed := min_fan, temp_history := [], aggressive_mode := true,
        stable_counter := 0 } := by
  refine ⟨?_, ?_, ?_, rfl⟩
  · exact (List.sorted_insertionSort _ _).chain'
  · rcases opts with _ | (_ | ⟨p, ps⟩) <;>
      simp only [mkFanCurve, List.length_insertionSort] <;>
      simp [default_points]
  · norm_num [mkFanCurve, default_points, List.insertionSort, List.orderedInsert]

/-! Reachability invariants of the controller loop. -/

lemma update_history_length (hist : List ℚ) (t : ℚ) (h : hist.length ≤ 10) :
    (update_history hist t).length ≤ 10 := by
  simp only [update_history]
  split
  · simpa using h
  · simp only [List.length_append, List.length_singleton] at *
    omega

lemma run_hist_le (target_temp : ℚ) (min_fan max_fan : ℤ) (samples : List (Option ℚ)) :
    (run target_temp min_fan max_fan samples).temp_history.length ≤ 10 := by
  suffices h : ∀ (l : List (Option ℚ)) (s : ControllerState), s.temp_history.length ≤ 10 →
      (l.foldl (fun s c => (get_fan_speed_for_temp target_temp min_fan max_fan s c).1)
        s).temp_history.length ≤ 10 by
    exact h samples _ (by simp [temperature_control_init])
  intro l
  induction l with
  | nil => exact fun s hs => hs
  | cons c rest ih =>
    intro s hs
    refine ih _ ?_
    rcases c with _ | t
    · exact hs
    · exact update_history_length _ _ hs

lemma step_inv (target_temp : ℚ) (min_fan max_fan : ℤ) (s : ControllerState) (c : Option ℚ)
    (h : s.aggressive_mode = true → s.stable_counter ≤ 5) :
    (get_fan_speed_for_temp target_temp min_fan max_fan s c).1.aggressive_mode = true →
      (get_fan_speed_for_temp target_temp min_fan max_fan s c).1.stable_counter ≤ 5 := by
  rcases c with _ | t
  · exact h
  · simp only [get_fan_speed_for_temp, stability_update]
    split_ifs with h1 h2 h3 h4 <;> intro hm <;> simp_all <;> omega

lemma run_inv (target_temp : ℚ) (min_fan max_fan : ℤ) (samples : List (Option ℚ)) :
    (run target_temp min_fan max_fan samples).aggressive_mode = true →
    (run target_temp min_fan max_fan samples).stable_counter ≤ 5 := by
  suffices h : ∀ (l : List (Option ℚ)) (s : ControllerState),
      (s.aggressive_mode = true → s.stable_counter ≤ 5) →
      ((l.foldl (fun s c => (get_fan_speed_for_temp target_temp min_fan max_fan s c).1)
          s).aggressive_mode = true →
        (l.foldl (fun s c => (get_fan_speed_for_temp target_temp min_fan max_fan s c).1)
          s).stable_counter ≤ 5) by
    exact h samples _ (fun _ => by norm_num [temperature_control_init])
  intro l
  induction l with
  | nil => exact fun s hs => hs
  | cons c rest ih => exact fun s hs => ih _ (step_inv target_temp min_fan max_fan s c hs)

/-- C3: in every controller session started (as always) in aggressive mode,
mode and counter transitions happen only on samples for which the updated
sliding-window history (capacity 10, oldest evicted) holds at least 4
entries; a stable sample (|currentTemp - target| < 3 and
max(history) - min(history) < 2) increments the stability counter, and the
mode switches from aggressive to gentle exactly when the counter reaches 6,
the counter not being reset by the switch; a non-stable sample resets the
counter to 0, and a gentle controller switches back to aggressive exactly
when additionally |currentTemp - target| > 5 or the variation exceeds 4. -/
theorem spec_C3 (target_temp : ℚ) (min_fan max_fan : ℤ) (samples : List (Option ℚ)) (t : ℚ)
    (s s' : ControllerState) (hist : List ℚ) (variation : ℚ)
    (hs : s = run target_temp min_fan max_fan samples)
    (hhist : hist = update_history s.temp_history t)
    (hvar : variation = listMax hist - listMin hist)
    (hs' : s' = (get_fan_speed_for_temp target_temp min_fan max_fan s (some t)).1) :
    s'.temp_history = hist ∧ hist.length ≤ 10 ∧
    (hist.length < 4 →
      s'.aggressive_mode = s.aggressive_mode ∧ s'.stable_counter = s.stable_counter) ∧
    (4 ≤ hist.length → |t - target_temp| < 3 ∧ variation < 2 →
      s'.stable_counter = s.stable_counter + 1 ∧
      s'.aggressive_mode = (if s.stable_counter + 1 = 6 then false else s.aggressive_mode)) ∧
    (4 ≤ hist.length → ¬(|t - target_temp| < 3 ∧ variation < 2) →
      s'.stable_counter = 0 ∧
      s'.aggressive_mode =
        (if s.aggressive_mode = false ∧ (|t - target_temp| > 5 ∨ variation > 4) then true
         else s.aggressive_mode)) := by
  have hinv := run_inv target_temp min_fan max_fan samples
  rw [← hs] at hinv
  subst hhist hvar hs'
  refine ⟨rfl, ?_, ?_, ?_, ?_⟩
  · refine update_history_length _ _ ?_
    rw [hs]
    exact run_hist_le target_temp min_fan max_fan samples
  · intro hlen
    simp only [get_fan_speed_for_temp, stability_update]
    rw [if_neg (by omega)]
    exact ⟨rfl, rfl⟩
  · intro hlen hstable
    simp only [get_fan_speed_for_temp, stability_update]
    rw [if_pos hlen, if_pos hstable]
    by_cases hmode : s.aggressive_mode = true
    · have hc5 := hinv hmode
      rw [hmode]
      by_cases h6 : 6 ≤ s.stable_counter + 1
      · rw [if_pos ⟨h6, rfl⟩]
        refine ⟨rfl, ?_⟩
        rw [if_pos (by omega)]
      · rw [if_neg (fun hc => h6 hc.1)]
        refine ⟨rfl, ?_⟩
        rw [if_neg (by omega)]
    · have hmf : s.aggressive_mode = false := by
        revert hmode
        rcases s.aggressive_mode with _ | _ <;> simp
      rw [hmf]
      rw [if_neg (by simp)]
      refine ⟨rfl, ?_⟩
      split_ifs <;> rfl
  · intro hlen hnst
    simp only [get_fan_speed_for_temp, stability_update]
    rw [if_pos hlen, if_neg hnst]
    constructor
    · split_ifs <;> rfl
    · split_ifs <;> simp_all

/-- Witness for spec_C3: on a fresh session the first sample leaves mode
and counter untouched because the history holds fewer than 4 entries. -/
theorem spec_C3_witness :
    (get_fan_speed_for_temp 70 30 100 (run 70 30 100 []) (some 80)).1.aggressive_mode = true ∧
    (get_fan_speed_for_temp 70 30 100 (run 70 30 100 []) (some 80)).1.stable_counter = 0 := by
  obtain ⟨-, -, h3, -, -⟩ := spec_C3 70 30 100 [] 80 (run 70 30 100 [])
    (get_fan_speed_for_temp 70 30 100 (run 70 30 100 []) (some 80)).1
    (update_history (run 70 30 100 []).temp_history 80)
    (listMax (update_history (run 70 30 100 []).temp_history 80) -
      listMin (update_history (run 70 30 100 []).temp_history 80))
    rfl rfl rfl rfl
  have h' := h3 (by norm_num [run, temperature_control_init, update_history])
  refine ⟨?_, ?_⟩
  · rw [h'.1]; rfl
  · rw [h'.2]; rfl

/-! Fan-speed bound invariants. -/

lemma candUp_bounds {minF maxF L a : ℤ} (hmm : minF ≤ maxF) (h1 : minF ≤ L) (ha : 0 ≤ a) :
    minF ≤ min maxF (L + a) ∧ min maxF (L + a) ≤ maxF :=
  ⟨le_min hmm (by omega), min_le_left _ _⟩

lemma candDown_bounds {minF maxF L a : ℤ} (hmm : minF ≤ maxF) (h2 : L ≤ maxF) (ha : 0 ≤ a) :
    minF ≤ max minF (L - a) ∧ max minF (L - a) ≤ maxF :=
  ⟨le_max_left _ _, max_le hmm (by omega)⟩

lemma max_cast_nonneg {a : ℤ} (b : ℤ) (ha : 0 ≤ a) : (0 : ℚ) ≤ ((max a b : ℤ) : ℚ) := by
  exact_mod_cast le_trans ha (le_max_left a b)

lemma compute_candidate_bounds (target_temp : ℚ) (min_fan max_fan : ℤ) (mode : Bool)
    (hist : List ℚ) (L : ℤ) (t : ℚ)
    (hmm : min_fan ≤ max_fan) (h1 : min_fan ≤ L) (h2 : L ≤ max_fan) :
    min_fan ≤ compute_candidate target_temp min_fan max_fan mode hist L t ∧
    compute_candidate target_temp min_fan max_fan mode hist L t ≤ max_fan := by
  cases mode
  · simp only [compute_candidate, Bool.false_eq_true, if_false]
    split_ifs with hd hc
    · exact candUp_bounds hmm h1
        (pyInt_nonneg (mul_nonneg (max_cast_nonneg _ (by norm_num)) (by norm_num)))
    · exact candUp_bounds hmm h1 (le_trans (by norm_num) (le_max_left _ _))
    · exact candDown_bounds hmm h2
        (pyInt_nonneg (mul_nonneg (max_cast_nonneg _ (by norm_num)) (by norm_num)))
  · simp only [compute_candidate, if_true]
    split_ifs with hd hc
    · exact candUp_bounds hmm h1
        (pyInt_nonneg (mul_nonneg (max_cast_nonneg _ (by norm_num)) (by norm_num)))
    · exact candUp_bounds hmm h1 (le_trans (by norm_num) (le_max_left _ _))
    · exact candDown_bounds hmm h2
        (pyInt_nonneg (mul_nonneg (max_cast_nonneg _ (by norm_num)) (by norm_num)))

lemma step_bounds (target_temp : ℚ) (min_fan max_fan : ℤ) (s : ControllerState) (c : Option ℚ)
    (hmm : min_fan ≤ max_fan) (h1 : min_fan ≤ s.last_fan_speed) (h2 : s.last_fan_speed ≤ max_fan) :
    (min_fan ≤ (get_fan_speed_for_temp target_temp min_fan max_fan s c).1.last_fan_speed ∧
     (get_fan_speed_for_temp target_temp min_fan max_fan s c).1.last_fan_speed ≤ max_fan) ∧
    (min_fan ≤ (get_fan_speed_for_temp target_temp min_fan max_fan s c).2 ∧
     (get_fan_speed_for_temp target_temp min_fan max_fan s c).2 ≤ max_fan) := by
  rcases c with _ | t
  · exact ⟨⟨h1, h2⟩, ⟨h1, h2⟩⟩
  · have hcb := compute_candidate_bounds target_temp min_fan max_fan
      (stability_update target_temp (update_history s.temp_history t) t
        s.aggressive_mode s.stable_counter).1
      (update_history s.temp_history t) s.last_fan_speed t hmm h1 h2
    simp only [get_fan_speed_for_temp]
    split_ifs
    · exact ⟨hcb, hcb⟩
    · exact ⟨⟨h1, h2⟩, ⟨h1, h2⟩⟩

lemma run_bounds (target_temp : ℚ) (min_fan max_fan : ℤ) (samples : List (Option ℚ))
    (hmm : min_fan ≤ max_fan) :
    min_fan ≤ (run target_temp min_fan max_fan samples).last_fan_speed ∧
    (run target_temp min_fan max_fan samples).last_fan_speed ≤ max_fan := by
  suffices h : ∀ (l : List (Option ℚ)) (s : ControllerState),
      min_fan ≤ s.last_fan_speed → s.last_fan_speed ≤ max_fan →
      min_fan ≤ (l.foldl (fun s c => (get_fan_speed_for_temp target_temp min_fan max_fan s c).1)
          s).last_fan_speed ∧
      (l.foldl (fun s c => (get_fan_speed_for_temp target_temp min_fan max_fan s c).1)
          s).last_fan_speed ≤ max_fan by
    exact h samples _ (le_refl _) hmm
  intro l
  induction l with
  | nil => exact fun s ha hb => ⟨ha, hb⟩
  | cons c rest ih =>
    intro s ha hb
    have hs := (step_bounds target_temp min_fan max_fan s c hmm ha hb).1
    exact ih _ hs.1 hs.2

/-- C9: for every controller constructed with minFan at most maxFan, the
internal last speed is initialized to minFan, every call (with an available
or unavailable sample) keeps it between minFan and maxFan, and hence every
returned fan speed lies in [minFan, maxFan]. -/
theorem spec_C9 (target_temp : ℚ) (min_fan max_fan : ℤ) (h : min_fan ≤ max_fan) :
    (temperature_control_init min_fan).last_fan_speed = min_fan ∧
    ∀ (samples : List (Option ℚ)),
      (min_fan ≤ (run target_temp min_fan max_fan samples).last_fan_speed ∧
       (run target_temp min_fan max_fan samples).last_fan_speed ≤ max_fan) ∧
      ∀ (c : Option ℚ),
        min_fan ≤ (get_fan_speed_for_temp target_temp min_fan max_fan
            (run target_temp min_fan max_fan samples) c).2 ∧
        (get_fan_speed_for_temp target_temp min_fan max_fan
            (run target_temp min_fan max_fan samples) c).2 ≤ max_fan := by
  refine ⟨rfl, fun samples => ⟨run_bounds target_temp min_fan max_fan samples h, fun c => ?_⟩⟩
  have hb := run_bounds target_temp min_fan max_fan samples h
  exact (step_bounds target_temp min_fan max_fan _ c h hb.1 hb.2).2

/-- Witness for spec_C9: with target 70 and bounds 30 and 100, the reply to
a first sample of 80 lies within the bounds. -/
theorem spec_C9_witness :
    (30 : ℤ) ≤ (get_fan_speed_for_temp 70 30 100 (run 70 30 100 []) (some 80)).2 ∧
    (get_fan_speed_for_temp 70 30 100 (run 70 30 100 []) (some 80)).2 ≤ 100 :=
  ((spec_C9 70 30 100 (by norm_num)).2 []).2 (some 80)

/-! The session fed with the constant sample 80 at target 70, bounds 30
and 100. -/

/-- State after n samples of 80. -/
def c8_state (n : ℕ) : ControllerState := run 70 30 100 (List.replicate n (some 80))

/-- Fan speed returned by the call consuming the (n+1)-th sample of 80. -/
def c8_output (n : ℕ) : ℤ := (get_fan_speed_for_temp 70 30 100 (c8_state n) (some 80)).2

lemma stab_80 (hist : List ℚ) : stability_update 70 hist 80 true 0 = (true, 0) := by
  simp only [stability_update]
  split_ifs with h1 h2 h3 h4 <;>
    first
    | rfl
    | exact absurd h2.1 (by norm_num)

lemma update_history_replicate (k : ℕ) (hk : k ≤ 10) :
    update_history (List.replicate k (80 : ℚ)) 80 = List.replicate (min (k + 1) 10) 80 := by
  simp only [update_history, ← List.replicate_succ']
  split_ifs with h
  · have hk10 : k = 10 := by
      simp only [List.length_replicate] at h
      omega
    subst hk10
    norm_num [List.replicate_succ]
  · have hle : k + 1 ≤ 10 := by
      simp only [List.length_replicate] at h
      omega
    rw [min_eq_left hle]

lemma getD_replicate (k i : ℕ) (d : ℚ) (hik : i < k) :
    (List.replicate k (80 : ℚ)).getD i d = 80 := by
  rw [List.getD_eq_getElem?_getD, List.getElem?_replicate, if_pos hik]
  rfl

lemma cand_80 (L : ℤ) (m : ℕ) :
    compute_candidate 70 30 100 true (List.replicate m 80) L 80 = min 100 (L + 25) := by
  have hclimb : ¬(3 ≤ (List.replicate m (80 : ℚ)).length ∧
      (List.replicate m (80 : ℚ)).getD ((List.replicate m (80 : ℚ)).length - 1) 0 >
        (List.replicate m (80 : ℚ)).getD ((List.replicate m (80 : ℚ)).length - 3) 0) := by
    simp only [List.length_replicate]
    rintro ⟨h3, hgt⟩
    rw [getD_replicate _ _ _ (by omega), getD_replicate _ _ _ (by omega)] at hgt
    exact lt_irrefl _ hgt
  simp only [compute_candidate, if_true]
  rw [if_pos (by norm_num : (80 : ℚ) - 70 > 0), if_neg hclimb]
  have h25 : pyInt (((80 : ℚ) - 70) * 2.5) = 25 := by norm_num [pyInt]
  rw [h25]
  norm_num

lemma c8_step (L : ℤ) (k : ℕ) (hk : k ≤ 10) :
    get_fan_speed_for_temp 70 30 100 ⟨L, List.replicate k 80, true, 0⟩ (some 80) =
      (⟨min 100 (L + 25), List.replicate (min (k + 1) 10) 80, true, 0⟩, min 100 (L + 25)) := by
  simp only [get_fan_speed_for_temp]
  rw [update_history_replicate k hk, stab_80, cand_80]
  rw [if_pos (Or.inr (by norm_num : |(80 : ℚ) - 70| > 3))]

lemma c8_state_eq (n : ℕ) :
    c8_state n = ⟨min 100 (30 + 25 * (n : ℤ)), List.replicate (min n 10) 80, true, 0⟩ := by
  induction n with
  | zero => norm_num [c8_state, run, temperature_control_init]
  | succ n ih =>
    have hstep : c8_state (n + 1) = (get_fan_speed_for_temp 70 30 100 (c8_state n) (some 80)).1 := by
      simp only [c8_state, run, List.replicate_succ', List.foldl_append, List.foldl_cons,
        List.foldl_nil]
    rw [hstep, ih, c8_step _ _ (by omega)]
    have h1 : min 100 (min 100 (30 + 25 * (n : ℤ)) + 25) = min 100 (30 + 25 * ((n : ℤ) + 1)) := by
      omega
    have h2 : min (min n 10 + 1) 10 = min (n + 1) 10 := by
      omega
    show ControllerState.mk _ _ _ _ = _
    rw [h1, h2]
    push_cast
    rfl

lemma c8_output_eq (n : ℕ) : c8_output n = min 100 (55 + 25 * (n : ℤ)) := by
  rw [c8_output, c8_state_eq, c8_step _ _ (by omega)]
  push_cast
  omega

/-- C8: with a controller at target 70, bounds 30 and 100, feeding the
constant sample 80.0 produces a fan-speed output sequence that is
non-decreasing, never exceeds maxFan = 100, and becomes constant (equal to
100) from the third sample on. -/
theorem spec_C8 :
    (∀ k, c8_output k ≤ c8_output (k + 1)) ∧ (∀ k, c8_output k ≤ 100) ∧
    (∀ k, 2 ≤ k → c8_output k = 100) := by
  refine ⟨fun k => ?_, fun k => ?_, fun k hk => ?_⟩ <;>
    simp only [c8_output_eq] <;> push_cast <;> omega

/-- Witness for spec_C8: the third output of the constant-80 session is
exactly 100. -/
theorem spec_C8_witness : c8_output 2 = 100 := spec_C8.2.2 2 (le_refl 2)

/-! Index and segment lemmas for the fan-curve interpolation. -/

lemma chain_fst_lt {pts : List (ℚ × ℚ)} (h : List.Chain' (fun a b : ℚ × ℚ => a.1 < b.1) pts)
    {i j : ℕ} (hij : i < j) (hj : j < pts.length) :
    (pts.getD i (0, 0)).1 < (pts.getD j (0, 0)).1 := by
  have hp := List.chain'_iff_pairwise.mp h
  rw [List.pairwise_iff_getElem] at hp
  rw [getD_eq_getElem _ _ (lt_trans hij hj), getD_eq_getElem _ _ hj]
  exact hp i j (lt_trans hij hj) hj hij

lemma chain_fst_le {pts : List (ℚ × ℚ)} (h : List.Chain' (fun a b : ℚ × ℚ => a.1 < b.1) pts)
    {i j : ℕ} (hij : i ≤ j) (hj : j < pts.length) :
    (pts.getD i (0, 0)).1 ≤ (pts.getD j (0, 0)).1 := by
  rcases eq_or_lt_of_le hij with rfl | hlt
  · exact le_refl _
  · exact (chain_fst_lt h hlt hj).le

lemma chain_snd_le {pts : List (ℚ × ℚ)} (h : List.Chain' (fun a b : ℚ × ℚ => a.2 ≤ b.2) pts)
    {i j : ℕ} (hij : i ≤ j) (hj : j < pts.length) :
    (pts.getD i (0, 0)).2 ≤ (pts.getD j (0, 0)).2 := by
  rcases eq_or_lt_of_le hij with rfl | hlt
  · exact le_refl _
  · have hp := List.chain'_iff_pairwise.mp h
    rw [List.pairwise_iff_getElem] at hp
    rw [getD_eq_getElem _ _ (lt_trans hlt hj), getD_eq_getElem _ _ hj]
    exact hp i j (lt_trans hlt hj) hj hlt

lemma head_getD {pts : List (ℚ × ℚ)} (hne : pts ≠ []) : pts.head hne = pts.getD 0 (0, 0) := by
  cases pts with
  | nil => exact absurd rfl hne
  | cons p ps => rfl

lemma getLast_getD {pts : List (ℚ × ℚ)} (hne : pts ≠ []) :
    pts.getLast hne = pts.getD (pts.length - 1) (0, 0) := by
  have hlen : pts.length - 1 < pts.length := by
    cases pts with
    | nil => exact absurd rfl hne
    | cons p ps => simp
  rw [List.getLast_eq_getElem, getD_eq_getElem _ _ hlen]

lemma seg_lower {t1 f1 t2 f2 t : ℚ} (h12 : t1 < t2) (hf : f1 ≤ f2) (h1 : t1 ≤ t) :
    f1 ≤ f1 + (t - t1) / (t2 - t1) * (f2 - f1) := by
  have h : (0 : ℚ) ≤ (t - t1) / (t2 - t1) * (f2 - f1) :=
    mul_nonneg (div_nonneg (by linarith) (by linarith)) (by linarith)
  linarith

lemma seg_upper {t1 f1 t2 f2 t : ℚ} (h12 : t1 < t2) (hf : f1 ≤ f2) (h2 : t ≤ t2) :
    f1 + (t - t1) / (t2 - t1) * (f2 - f1) ≤ f2 := by
  have hd : (0 : ℚ) < t2 - t1 := by linarith
  have hr : (t - t1) / (t2 - t1) ≤ 1 := by
    rw [div_le_one hd]
    linarith
  have h : (t - t1) / (t2 - t1) * (f2 - f1) ≤ 1 * (f2 - f1) :=
    mul_le_mul_of_nonneg_right hr (by linarith)
  linarith

lemma seg_mono {t1 f1 t2 f2 t t' : ℚ} (h12 : t1 < t2) (hf : f1 ≤ f2) (htt : t ≤ t') :
    f1 + (t - t1) / (t2 - t1) * (f2 - f1) ≤ f1 + (t' - t1) / (t2 - t1) * (f2 - f1) := by
  have hd : (0 : ℚ) < t2 - t1 := by linarith
  have hr : (t - t1) / (t2 - t1) ≤ (t' - t1) / (t2 - t1) := by
    rw [div_le_div_iff_of_pos_right hd]
    linarith
  have h := mul_le_mul_of_nonneg_right hr (by linarith : (0 : ℚ) ≤ f2 - f1)
  linarith

lemma mkFanCurve_none (nm : String) : mkFanCurve nm none = ⟨nm, default_points⟩ := by
  norm_num [mkFanCurve, default_points, List.insertionSort, List.orderedInsert]

lemma interp_pts_eq (pts : List (ℚ × ℚ)) (t : ℚ)
    (h : List.Chain' (fun a b : ℚ × ℚ => a.1 < b.1) pts) :
    ∀ i : ℕ, i + 1 < pts.length →
      (pts.getD i (0, 0)).1 ≤ t → t ≤ (pts.getD (i + 1) (0, 0)).1 →
      interp_pts pts t =
        (pts.getD i (0, 0)).2 +
          (t - (pts.getD i (0, 0)).1) /
            ((pts.getD (i + 1) (0, 0)).1 - (pts.getD i (0, 0)).1) *
            ((pts.getD (i + 1) (0, 0)).2 - (pts.getD i (0, 0)).2) := by
  induction pts with
  | nil =>
    intro i hi
    simp at hi
  | cons p1 rest ih =>
    cases rest with
    | nil =>
      intro i hi
      simp at hi
    | cons p2 rest2 =>
      intro i hi hle hge
      have h12 : p1.1 < p2.1 := (List.chain'_cons.mp h).1
      have hchain2 : List.Chain' (fun a b : ℚ × ℚ => a.1 < b.1) (p2 :: rest2) :=
        (List.chain'_cons.mp h).2
      match i with
      | 0 =>
        simp only [List.getD_cons_zero, List.getD_cons_succ] at hle hge ⊢
        simp only [interp_pts]
        rw [if_pos ⟨hle, hge⟩]
      | Nat.succ j =>
        have hj1 : j + 1 < (p2 :: rest2).length := by
          simpa using hi
        simp only [List.getD_cons_succ] at hle hge ⊢
        by_cases hc : p1.1 ≤ t ∧ t ≤ p2.1
        · have hp2le : p2.1 ≤ ((p2 :: rest2).getD j (0, 0)).1 := by
            have hh := chain_fst_le hchain2 (Nat.zero_le j) (by omega)
            simpa using hh
          have ht : t = p2.1 := le_antisymm hc.2 (le_trans hp2le hle)
          have hj0 : j = 0 := by
            by_contra hjne
            have hlt := chain_fst_lt hchain2 (Nat.pos_of_ne_zero hjne) (by omega)
            simp only [List.getD_cons_zero] at hlt
            exact absurd (lt_of_lt_of_le hlt hle) (by rw [ht]; exact lt_irrefl _)
          subst hj0
          simp only [List.getD_cons_zero, List.getD_cons_succ] at hge ⊢
          simp only [interp_pts]
          rw [if_pos hc, ht]
          have hne12 : p2.1 - p1.1 ≠ 0 := sub_ne_zero.mpr (ne_of_gt h12)
          rw [div_self hne12]
          ring
        · simp only [interp_pts]
          rw [if_neg hc]
          exact ih hchain2 j hj1 hle hge

lemma speed_of_le_head (nm : String) (p : ℚ × ℚ) (ps : List (ℚ × ℚ)) (t : ℚ) (h : t ≤ p.1) :
    FanCurve.speed ⟨nm, p :: ps⟩ t = p.2 := by
  simp only [FanCurve.speed]
  rw [if_pos h]

lemma speed_of_ge_last (nm : String) (pts : List (ℚ × ℚ)) (t : ℚ)
    (hch : List.Chain' (fun a b : ℚ × ℚ => a.1 < b.1) pts) (hne : pts ≠ [])
    (h : (pts.getLast hne).1 ≤ t) :
    FanCurve.speed ⟨nm, pts⟩ t = (pts.getLast hne).2 := by
  cases pts with
  | nil => exact absurd rfl hne
  | cons p ps =>
    simp only [FanCurve.speed]
    by_cases h1 : t ≤ p.1
    · rw [if_pos h1]
      cases ps with
      | nil => rfl
      | cons q qs =>
        exfalso
        have hlt : ((p :: q :: qs).getD 0 (0, 0)).1 <
            ((p :: q :: qs).getD ((p :: q :: qs).length - 1) (0, 0)).1 :=
          chain_fst_lt hch (by simp) (by simp)
        rw [← getLast_getD (List.cons_ne_nil p (q :: qs))] at hlt
        simp only [List.getD_cons_zero] at hlt
        exact absurd (le_trans h h1) (not_le.mpr hlt)
    · rw [if_neg h1, if_pos h]

lemma speed_bracket_eq (nm : String) (pts : List (ℚ × ℚ)) (t : ℚ)
    (hch : List.Chain' (fun a b : ℚ × ℚ => a.1 < b.1) pts) (hne : pts ≠ [])
    (i : ℕ) (hi : i + 1 < pts.length)
    (h1 : (pts.getD i (0, 0)).1 ≤ t) (h2 : t ≤ (pts.getD (i + 1) (0, 0)).1) :
    FanCurve.speed ⟨nm, pts⟩ t =
      (pts.getD i (0, 0)).2 +
        (t - (pts.getD i (0, 0)).1) /
          ((pts.getD (i + 1) (0, 0)).1 - (pts.getD i (0, 0)).1) *
          ((pts.getD (i + 1) (0, 0)).2 - (pts.getD i (0, 0)).2) := by
  cases pts with
  | nil => exact absurd rfl hne
  | cons p ps =>
    have hne12 : ((p :: ps).getD (i + 1) (0, 0)).1 - ((p :: ps).getD i (0, 0)).1 ≠ 0 :=
      sub_ne_zero.mpr (ne_of_gt (chain_fst_lt hch (by omega) (by omega)))
    by_cases hh : t ≤ p.1
    · have hple : p.1 ≤ ((p :: ps).getD i (0, 0)).1 := by
        have hc := chain_fst_le hch (Nat.zero_le i) (by omega)
        simpa using hc
      have ht : t = p.1 := le_antisymm hh (le_trans hple h1)
      have hi0 : i = 0 := by
        by_contra hine
        have hlt := chain_fst_lt hch (Nat.pos_of_ne_zero hine) (by omega)
        simp only [List.getD_cons_zero] at hlt
        exact absurd (lt_of_lt_of_le hlt h1) (by rw [ht]; exact lt_irrefl _)
      subst hi0
      rw [speed_of_le_head nm p ps t hh]
      simp only [List.getD_cons_zero] at ht ⊢
      rw [ht]
      ring
    · by_cases hl : ((p :: ps).getLast (List.cons_ne_nil p ps)).1 ≤ t
      · have hlastD : ((p :: ps).getLast (List.cons_ne_nil p ps)).1 =
            ((p :: ps).getD ((p :: ps).length - 1) (0, 0)).1 := by
          rw [getLast_getD]
        have hlD : ((p :: ps).getD ((p :: ps).length - 1) (0, 0)).1 ≤ t := hlastD ▸ hl
        have hle2 : ((p :: ps).getD (i + 1) (0, 0)).1 ≤
            ((p :: ps).getD ((p :: ps).length - 1) (0, 0)).1 :=
          chain_fst_le hch (by omega) (by omega)
        have htip : t = ((p :: ps).getD (i + 1) (0, 0)).1 :=
          le_antisymm h2 (le_trans hle2 hlD)
        have hi1 : i + 1 = (p :: ps).length - 1 := by
          by_contra hine
          have hlt2 : ((p :: ps).getD (i + 1) (0, 0)).1 <
              ((p :: ps).getD ((p :: ps).length - 1) (0, 0)).1 :=
            chain_fst_lt hch (by omega) (by omega)
          rw [← htip] at hlt2
          exact absurd hlt2 (not_lt.mpr hlD)
        rw [speed_of_ge_last nm (p :: ps) t hch (List.cons_ne_nil p ps) hl]
        have hlastD2 : ((p :: ps).getLast (List.cons_ne_nil p ps)).2 =
            ((p :: ps).getD ((p :: ps).length - 1) (0, 0)).2 := by
          rw [getLast_getD]
        rw [hlastD2, ← hi1, htip, div_self hne12]
        ring
      · simp only [FanCurve.speed]
        rw [if_neg hh, if_neg hl]
        exact interp_pts_eq (p :: ps) t hch i hi h1 h2

lemma exists_bracket :
    ∀ (pts : List (ℚ × ℚ)) (t : ℚ) (hne : pts ≠ []),
      (pts.head hne).1 < t → t < (pts.getLast hne).1 →
      ∃ i : ℕ, i + 1 < pts.length ∧
        (pts.getD i (0, 0)).1 ≤ t ∧ t ≤ (pts.getD (i + 1) (0, 0)).1 := by
  intro pts
  induction pts with
  | nil => intro t hne; exact absurd rfl hne
  | cons p rest ih =>
    intro t hne hhd hlast
    cases rest with
    | nil =>
      exfalso
      simp only [List.head_cons, List.getLast_singleton] at hhd hlast
      exact absurd (lt_trans hhd hlast) (lt_irrefl _)
    | cons q qs =>
      by_cases hc : t ≤ q.1
      · refine ⟨0, by simp, ?_, ?_⟩
        · simp only [List.getD_cons_zero]
          exact le_of_lt (by simpa using hhd)
        · simpa using hc
      · push_neg at hc
        have hlast2 : t < ((q :: qs).getLast (List.cons_ne_nil q qs)).1 := by
          rw [List.getLast_cons (List.cons_ne_nil q qs)] at hlast
          exact hlast
        obtain ⟨j, hj, hj1, hj2⟩ :=
          ih t (List.cons_ne_nil q qs) (by simpa using hc) hlast2
        exact ⟨j + 1, by simpa using hj, by simpa using hj1, by simpa using hj2⟩

lemma speed_bounds (nm : String) (pts : List (ℚ × ℚ)) (u : ℚ)
    (hch : List.Chain' (fun a b : ℚ × ℚ => a.1 < b.1) pts)
    (hfan : List.Chain' (fun a b : ℚ × ℚ => a.2 ≤ b.2) pts)
    (hne : pts ≠ []) :
    (pts.head hne).2 ≤ FanCurve.speed ⟨nm, pts⟩ u ∧
    FanCurve.speed ⟨nm, pts⟩ u ≤ (pts.getLast hne).2 := by
  have hlen : 0 < pts.length := List.length_pos.mpr hne
  have hhead2 : (pts.head hne).2 = (pts.getD 0 (0, 0)).2 := by rw [head_getD]
  have hlast2 : (pts.getLast hne).2 = (pts.getD (pts.length - 1) (0, 0)).2 := by
    rw [getLast_getD]
  have hfirstlast : (pts.head hne).2 ≤ (pts.getLast hne).2 := by
    rw [hhead2, hlast2]
    exact chain_snd_le hfan (by omega) (by omega)
  by_cases h1 : u ≤ (pts.head hne).1
  · cases pts with
    | nil => exact absurd rfl hne
    | cons p ps =>
      rw [speed_of_le_head nm p ps u (by simpa using h1)]
      exact ⟨le_refl _, by simpa using hfirstlast⟩
  · by_cases h2 : (pts.getLast hne).1 ≤ u
    · rw [speed_of_ge_last nm pts u hch hne h2]
      exact ⟨hfirstlast, le_refl _⟩
    · push_neg at h1 h2
      obtain ⟨i, hi, hb1, hb2⟩ := exists_bracket pts u hne h1 h2
      rw [speed_bracket_eq nm pts u hch hne i hi hb1 hb2]
      have hadj : (pts.getD i (0, 0)).1 < (pts.getD (i + 1) (0, 0)).1 :=
        chain_fst_lt hch (by omega) (by omega)
      have hfadj : (pts.getD i (0, 0)).2 ≤ (pts.getD (i + 1) (0, 0)).2 :=
        chain_snd_le hfan (by omega) (by omega)
      constructor
      · exact le_trans (hhead2 ▸ chain_snd_le hfan (Nat.zero_le i) (by omega))
          (seg_lower hadj hfadj hb1)
      · exact le_trans (seg_upper hadj hfadj hb2)
          (hlast2 ▸ chain_snd_le hfan (by omega) (by omega))

/-- C5: for a FanCurve with at least one point sorted strictly ascending by
temperature, speed returns the fan value of the first point for any
temperature at or below the lowest temperature, the fan value of the last
point for any temperature at or above the highest, and otherwise
f1 + (temperature - t1) / (t2 - t1) * (f2 - f1) for a bracketing pair
(t1, f1), (t2, f2); in particular on the default curve
[(30,30),(50,40),(70,60),(80,80),(90,100)], speed 60 = 50, speed 29 = 30
and speed 95 = 100. -/
theorem spec_C5 (nm : String) (pts : List (ℚ × ℚ)) (t : ℚ)
    (hch : List.Chain' (fun a b : ℚ × ℚ => a.1 < b.1) pts) (hne : pts ≠ []) :
    (t ≤ (pts.head hne).1 → FanCurve.speed ⟨nm, pts⟩ t = (pts.head hne).2) ∧
    ((pts.getLast hne).1 ≤ t → FanCurve.speed ⟨nm, pts⟩ t = (pts.getLast hne).2) ∧
    (∀ i : ℕ, i + 1 < pts.length →
      (pts.getD i (0, 0)).1 ≤ t → t ≤ (pts.getD (i + 1) (0, 0)).1 →
      FanCurve.speed ⟨nm, pts⟩ t =
        (pts.getD i (0, 0)).2 +
          (t - (pts.getD i (0, 0)).1) /
            ((pts.getD (i + 1) (0, 0)).1 - (pts.getD i (0, 0)).1) *
            ((pts.getD (i + 1) (0, 0)).2 - (pts.getD i (0, 0)).2)) ∧
    (mkFanCurve "Default" none).speed 60 = 50 ∧
    (mkFanCurve "Default" none).speed 29 = 30 ∧
    (mkFanCurve "Default" none).speed 95 = 100 := by
  refine ⟨?_, fun h => speed_of_ge_last nm pts t hch hne h,
    fun i hi h1 h2 => speed_bracket_eq nm pts t hch hne i hi h1 h2, ?_, ?_, ?_⟩
  · intro h
    cases pts with
    | nil => exact absurd rfl hne
    | cons p ps =>
      simp only [List.head_cons] at h ⊢
      exact speed_of_le_head nm p ps t h
  · rw [mkFanCurve_none]
    norm_num [FanCurve.speed, default_points, interp_pts, List.getLast]
  · rw [mkFanCurve_none]
    norm_num [FanCurve.speed, default_points]
  · rw [mkFanCurve_none]
    norm_num [FanCurve.speed, default_points, List.getLast]

/-- Witness for spec_C5: the default curve evaluated at 60 gives 50. -/
theorem spec_C5_witness : (mkFanCurve "Default" none).speed 60 = 50 :=
  (spec_C5 "Default" default_points 60
    (by norm_num [default_points, List.chain'_cons])
    (by unfold default_points; exact List.cons_ne_nil _ _)).2.2.2.1

/-- C6 is refuted as stated: the curve [(30, 80), (50, 20)] has its points
sorted strictly ascending by temperature, yet speed 30 = 80 exceeds
speed 50 = 20, so speed is not monotonic non-decreasing without the extra
assumption that the fan values are non-decreasing as well. -/
theorem spec_C6_cex :
    List.Chain' (fun a b : ℚ × ℚ => a.1 < b.1) [((30 : ℚ), (80 : ℚ)), ((50 : ℚ), (20 : ℚ))] ∧
    (30 : ℚ) ≤ 50 ∧
    FanCurve.speed ⟨"Desc", [(30, 80), (50, 20)]⟩ 30 = 80 ∧
    FanCurve.speed ⟨"Desc", [(30, 80), (50, 20)]⟩ 50 = 20 ∧
    ¬((80 : ℚ) ≤ 20) := by
  refine ⟨?_, by norm_num, ?_, ?_, by norm_num⟩
  · norm_num [List.chain'_cons]
  · norm_num [FanCurve.speed]
  · norm_num [FanCurve.speed, List.getLast]

/-- C6 (amended): for a nonempty FanCurve whose points are sorted strictly
ascending by temperature and whose fan values are non-decreasing along the
curve, speed is monotonic non-decreasing in temperature. -/
theorem spec_C6 (nm : String) (pts : List (ℚ × ℚ)) (t t' : ℚ)
    (hch : List.Chain' (fun a b : ℚ × ℚ => a.1 < b.1) pts)
    (hfan : List.Chain' (fun a b : ℚ × ℚ => a.2 ≤ b.2) pts)
    (hne : pts ≠ []) (htt : t ≤ t') :
    FanCurve.speed ⟨nm, pts⟩ t ≤ FanCurve.speed ⟨nm, pts⟩ t' := by
  rcases eq_or_lt_of_le htt with rfl | htlt
  · exact le_refl _
  by_cases h1' : t' ≤ (pts.head hne).1
  · cases pts with
    | nil => exact absurd rfl hne
    | cons p ps =>
      simp only [List.head_cons] at h1'
      rw [speed_of_le_head nm p ps t (le_trans htt h1'), speed_of_le_head nm p ps t' h1']
  by_cases h2 : (pts.getLast hne).1 ≤ t
  · rw [speed_of_ge_last nm pts t hch hne h2,
      speed_of_ge_last nm pts t' hch hne (le_trans h2 htt)]
  by_cases h1 : t ≤ (pts.head hne).1
  · cases pts with
    | nil => exact absurd rfl hne
    | cons p ps =>
      simp only [List.head_cons] at h1
      rw [speed_of_le_head nm p ps t h1]
      have hb := (speed_bounds nm (p :: ps) t' hch hfan hne).1
      simpa using hb
  by_cases h2' : (pts.getLast hne).1 ≤ t'
  · rw [speed_of_ge_last nm pts t' hch hne h2']
    exact (speed_bounds nm pts t hch hfan hne).2
  push_neg at h1 h1' h2 h2'
  obtain ⟨i, hi, hi1, hi2⟩ := exists_bracket pts t hne h1 h2
  obtain ⟨j, hj, hj1, hj2⟩ := exists_bracket pts t' hne h1' h2'
  rw [speed_bracket_eq nm pts t hch hne i hi hi1 hi2,
    speed_bracket_eq nm pts t' hch hne j hj hj1 hj2]
  have hadji : (pts.getD i (0, 0)).1 < (pts.getD (i + 1) (0, 0)).1 :=
    chain_fst_lt hch (by omega) (by omega)
  have hadjj : (pts.getD j (0, 0)).1 < (pts.getD (j + 1) (0, 0)).1 :=
    chain_fst_lt hch (by omega) (by omega)
  have hfadji : (pts.getD i (0, 0)).2 ≤ (pts.getD (i + 1) (0, 0)).2 :=
    chain_snd_le hfan (by omega) (by omega)
  have hfadjj : (pts.getD j (0, 0)).2 ≤ (pts.getD (j + 1) (0, 0)).2 :=
    chain_snd_le hfan (by omega) (by omega)
  rcases lt_trichotomy j i with hji | rfl | hij
  · exfalso
    have hmid : (pts.getD (j + 1) (0, 0)).1 ≤ (pts.getD i (0, 0)).1 :=
      chain_fst_le hch (by omega) (by omega)
    linarith
  · exact seg_mono hadji hfadji htt
  · have hmid : (pts.getD (i + 1) (0, 0)).2 ≤ (pts.getD j (0, 0)).2 :=
      chain_snd_le hfan (by omega) (by omega)
    exact le_trans (seg_upper hadji hfadji hi2) (le_trans hmid (seg_lower hadjj hfadjj hj1))

/-- Witness for spec_C6: on the default curve, the speed at 40 does not
exceed the speed at 60. -/
theorem spec_C6_witness :
    FanCurve.speed ⟨"Default", default_points⟩ 40 ≤ FanCurve.speed ⟨"Default", default_points⟩ 60 :=
  spec_C6 "Default" default_points 40 60
    (by norm_num [default_points, List.chain'_cons])
    (by norm_num [default_points, List.chain'_cons])
    (by unfold default_points; exact List.cons_ne_nil _ _) (by norm_num)
